import Mathlib

/-!
Verification development for the QuantumWalk repository.

The TypeScript sources are shallowly embedded: timestamps and
millisecond durations are `Int` (JavaScript integers in the range
where doubles are exact), BigInt arithmetic is `Int` arithmetic with
truncating division (`Int.tdiv`, matching BigInt `/`), and the
external SHA-256 hasher (`hasher.ts`, not part of the sources) is an
abstract function parameter producing a hex digest, per the spec's
description of the external hashing capability.
-/

namespace QuantumWalk

/-! ## Duration converter (src/README.md, durationConverter.ts) -/

/-- Numeric value of one hex digit, as parsed by JavaScript
`BigInt('0x' + s)`: `0`-`9`, `a`-`f`, `A`-`F` (checked on `Char.toNat`
code points). Non-hex characters would make `BigInt` throw; theorems
restrict digests to hex characters. -/
def hexDigitVal (c : Char) : ℕ :=
  if 48 ≤ c.toNat ∧ c.toNat ≤ 57 then c.toNat - 48
  else if 97 ≤ c.toNat ∧ c.toNat ≤ 102 then c.toNat - 87
  else if 65 ≤ c.toNat ∧ c.toNat ≤ 70 then c.toNat - 55
  else 0

/-- Character is a hexadecimal digit (`0`-`9`, `a`-`f`, `A`-`F`). -/
def IsHexDigit (c : Char) : Prop :=
  (48 ≤ c.toNat ∧ c.toNat ≤ 57) ∨ (97 ≤ c.toNat ∧ c.toNat ≤ 102) ∨
    (65 ≤ c.toNat ∧ c.toNat ≤ 70)

instance (c : Char) : Decidable (IsHexDigit c) := by
  unfold IsHexDigit; infer_instance

/-- Unsigned value of a big-endian list of hex digits, as parsed by
JavaScript `BigInt('0x' + s)`. -/
def hexVal (l : List Char) : ℕ :=
  l.foldl (fun a c => 16 * a + hexDigitVal c) 0

/-- Maximum value for a 64-bit unsigned integer,
`BigInt('0xFFFFFFFFFFFFFFFF')` in the source. -/
def maxUint64 : ℤ := 18446744073709551615

/-- Maximum interval duration, 7 days in milliseconds
(`MAX_INTERVAL_MS` in durationConverter.ts). -/
def MAX_INTERVAL_MS : ℤ := 604800000

/-- Translation of `hashToDuration` (durationConverter.ts, quoted in
src/README.md): take the first 16 hex characters of the digest, parse
as an unsigned 64-bit value, and scale by `maxInterval / (2^64 - 1)`
using BigInt arithmetic. BigInt division truncates toward zero
(`Int.tdiv`); the final JavaScript `Math.floor` is the identity on the
already-integral value (exact for results below 2^53). -/
def hashToDuration (hash : String) (maxInterval : ℤ) : ℤ :=
  let hexSubstring := hash.toList.take 16
  let hashValue : ℤ := hexVal hexSubstring
  (hashValue * maxInterval).tdiv maxUint64

/-! ## Data model (src/src/types/quantum.ts) -/

/-- Translation of the `QuantumStep` record: `index`, `timestamp`
(milliseconds since the Unix epoch), `interval` (milliseconds that
produced this step), `hash` (hex digest of the predecessor's
timestamp), `isoString` (textual form of `timestamp`). -/
structure QuantumStep where
  index : ℕ
  timestamp : ℤ
  interval : ℤ
  hash : String
  isoString : String
deriving DecidableEq, Repr

/-- Translation of `QuantumConfig`: `maxInterval` and `startTimestamp`. -/
structure QuantumConfig where
  maxInterval : ℤ
  startTimestamp : ℤ
deriving DecidableEq, Repr

/-- Default configuration (`DEFAULT_CONFIG` in stepCalculator.ts). -/
def DEFAULT_CONFIG : QuantumConfig := ⟨MAX_INTERVAL_MS, 0⟩

/-! ## Step generator (stepCalculator.ts, src/unnamed/part_000)

Modelled from the spec: `hashTimestamp` (hasher.ts) is not among the
sources; spec §6 describes it as an external deterministic capability
mapping a timestamp to a fixed-length hex digest, so the embedding
abstracts it as a function parameter `H`. Likewise
`Date.toISOString` is abstracted as `iso`. Every theorem quantifies
over these parameters. -/

section StepGenerator

variable (H : ℤ → String) (iso : ℤ → String)

/-- Translation of `getInitialStep`: index 0, timestamp 0 (the Unix
epoch, hard-coded in the source), interval 0, hash of timestamp 0. -/
def getInitialStep : QuantumStep :=
  ⟨0, 0, 0, H 0, iso 0⟩

/-- Translation of `calculateNextStep`: hash the current timestamp,
convert the digest to a duration bounded by `config.maxInterval`, and
advance the timestamp by that duration. -/
def calculateNextStep (currentStep : QuantumStep) (config : QuantumConfig) : QuantumStep :=
  let hash := H currentStep.timestamp
  let interval := hashToDuration hash config.maxInterval
  let nextTimestamp := currentStep.timestamp + interval
  ⟨currentStep.index + 1, nextTimestamp, interval, hash, iso nextTimestamp⟩

/-- Chain obtained by iterating `calculateNextStep` from a start step;
used to state properties of the generator's loops. -/
def walkFrom (config : QuantumConfig) (start : QuantumStep) : ℕ → QuantumStep
  | 0 => start
  | n + 1 => calculateNextStep H iso (walkFrom config start n) config

/-- Loop body of `calculateStepsForward`: produce `count` successive
steps after `current`, in order. -/
def stepsForwardAux (config : QuantumConfig) (current : QuantumStep) : ℕ → List QuantumStep
  | 0 => []
  | n + 1 =>
    let nxt := calculateNextStep H iso current config
    nxt :: stepsForwardAux config nxt n

/-- Translation of `calculateStepsForward`. -/
def calculateStepsForward (startStep : QuantumStep) (count : ℕ)
    (config : QuantumConfig) : List QuantumStep :=
  stepsForwardAux H iso config startStep count

end StepGenerator

/-! ## calculateStepsUntil (stepCalculator.ts) -/

/-- Loop of `calculateStepsUntil`: while the current timestamp is below
the target, append the next step; throw once the accumulated list
exceeds one million steps. The JavaScript loop always terminates
because the list grows on every iteration; here the same bound is the
termination measure. -/
def stepsUntilAux (H iso : ℤ → String) (target : ℤ) (config : QuantumConfig)
    (current : QuantumStep) (steps : List QuantumStep) : Except String (List QuantumStep) :=
  if current.timestamp < target then
    let nxt := calculateNextStep H iso current config
    if h : 1000000 < (steps ++ [nxt]).length then
      .error "Maximum step limit exceeded (1,000,000 steps)"
    else
      stepsUntilAux H iso target config nxt (steps ++ [nxt])
  else
    .ok steps
termination_by 1000001 - steps.length
decreasing_by
  simp only [List.length_append, List.length_cons, List.length_nil] at *
  omega

/-- Translation of `calculateStepsUntil`. -/
def calculateStepsUntil (H iso : ℤ → String) (startStep : QuantumStep) (target : ℤ)
    (config : QuantumConfig) : Except String (List QuantumStep) :=
  stepsUntilAux H iso target config startStep []

/-! ## findStepNearTimestamp (stepCalculator.ts) -/

/-- Loop of `findStepNearTimestamp`: walk forward while the current
timestamp is below the target; when the next step would overshoot,
return whichever of the two straddling steps is closer,
`currentDiff < nextDiff ? current : next` in the source. The JavaScript
loop can diverge (a zero-duration fixed point below the target), so the
embedding adds explicit fuel and returns `none` on exhaustion. -/
def findNearAux (H iso : ℤ → String) (target : ℤ) (config : QuantumConfig) :
    ℕ → QuantumStep → Option QuantumStep
  | 0, _ => none
  | fuel + 1, current =>
    if current.timestamp < target then
      let nxt := calculateNextStep H iso current config
      if target < nxt.timestamp then
        some (if (target - current.timestamp).natAbs < (target - nxt.timestamp).natAbs
          then current else nxt)
      else findNearAux H iso target config fuel nxt
    else some current

/-- Translation of `findStepNearTimestamp`: start at the initial step
and search forward. -/
def findStepNearTimestamp (H iso : ℤ → String) (fuel : ℕ) (target : ℤ)
    (config : QuantumConfig) : Option QuantumStep :=
  findNearAux H iso target config fuel (getInitialStep H iso)

/-- Abbreviation for the chain walked from the origin, as
`findStepNearTimestamp` walks it. -/
def chainStep (H iso : ℤ → String) (config : QuantumConfig) (k : ℕ) : QuantumStep :=
  walkFrom H iso config (getInitialStep H iso) k

/-- Concrete deterministic digest function used to instantiate the
abstract hasher in witnesses and counterexamples. -/
def constHash (d : String) : ℤ → String := fun _ => d

/-- Concrete ISO formatter used in witnesses and counterexamples. -/
def isoBlank : ℤ → String := fun _ => ""

/-- Configuration with `maxInterval = 2^64 - 1`, under which
`hashToDuration` returns exactly the 64-bit prefix value; convenient
for constructing chains with chosen intervals. -/
def bigConfig : QuantumConfig := ⟨maxUint64, 0⟩

/-! ## calculateStepsInRange (stepCalculator.ts) -/

/-- Loop of `calculateStepsInRange`: while the current timestamp is
below `endTs`, advance and collect the new step when its timestamp is
at most `endTs`. Fueled for the same reason as `findNearAux`. -/
def stepsInRangeAux (H iso : ℤ → String) (endTs : ℤ) (config : QuantumConfig) :
    ℕ → QuantumStep → List QuantumStep → Option (List QuantumStep)
  | 0, _, _ => none
  | fuel + 1, current, steps =>
    if current.timestamp < endTs then
      let c := calculateNextStep H iso current config
      stepsInRangeAux H iso endTs config fuel c
        (if c.timestamp ≤ endTs then steps ++ [c] else steps)
    else some steps

/-- Translation of `calculateStepsInRange`: find the step nearest the
start timestamp, seed the result with it, then collect forward until
the end timestamp. -/
def calculateStepsInRange (H iso : ℤ → String) (fuel : ℕ) (startTs endTs : ℤ)
    (config : QuantumConfig) : Option (List QuantumStep) :=
  match findStepNearTimestamp H iso fuel startTs config with
  | none => none
  | some firstStep => stepsInRangeAux H iso endTs config fuel firstStep [firstStep]

/-! ## Step cache (src/src/utils/quantum/cache.ts)

JavaScript `Map` preserves insertion order: setting an existing key
updates it in place, setting a new key appends, and the "first" key is
the oldest inserted. The maps are modelled as association lists in
insertion order. -/

/-- Translation of `StepCacheEntry`: the cached step plus the
insertion-time clock reading (`Date.now()`, passed in as `now` since
the clock is external). -/
structure StepCacheEntry where
  step : QuantumStep
  timestamp : ℤ
deriving DecidableEq, Repr

/-- Update-in-place-or-append, the behavior of `Map.set`. -/
def assocSet {α : Type} (l : List (ℕ × α)) (k : ℕ) (v : α) : List (ℕ × α) :=
  match l with
  | [] => [(k, v)]
  | (k', v') :: t => if k' = k then (k, v) :: t else (k', v') :: assocSet t k v

/-- First-match lookup, the behavior of `Map.get`. -/
def assocLookup {α : Type} (l : List (ℕ × α)) (k : ℕ) : Option α :=
  match l with
  | [] => none
  | (k', v) :: t => if k' = k then some v else assocLookup t k

/-- Translation of the `StepCache` class state: the entry map, its
capacity, and the checkpoint map. The constructor's
`checkpointInterval` parameter is unused in the source (the interval
1000 is hard-coded), so it is omitted. -/
structure StepCache where
  cache : List (ℕ × StepCacheEntry)
  maxSize : ℕ
  checkpoints : List (ℕ × QuantumStep)
deriving DecidableEq, Repr

/-- Freshly constructed cache (`new StepCache(maxSize)`). -/
def StepCache.empty (maxSize : ℕ) : StepCache := ⟨[], maxSize, []⟩

/-- Translation of `StepCache.set`: evict the oldest-inserted entry
when at capacity, store the step under its index, and record a
checkpoint whenever the index is a multiple of 1000. -/
def StepCache.set (c : StepCache) (now : ℤ) (step : QuantumStep) : StepCache :=
  let cache₁ := if c.maxSize ≤ c.cache.length then c.cache.tail else c.cache
  let cache₂ := assocSet cache₁ step.index ⟨step, now⟩
  let checkpoints₂ :=
    if step.index % 1000 = 0 then assocSet c.checkpoints step.index step else c.checkpoints
  ⟨cache₂, c.maxSize, checkpoints₂⟩

/-- Translation of `StepCache.get`. -/
def StepCache.get (c : StepCache) (index : ℕ) : Option QuantumStep :=
  (assocLookup c.cache index).map (fun e => e.step)

/-- Translation of `StepCache.getNearestCheckpoint`: look up only the
single bucket `Math.floor(targetIndex / 1000) * 1000`. -/
def StepCache.getNearestCheckpoint (c : StepCache) (targetIndex : ℕ) : Option QuantumStep :=
  assocLookup c.checkpoints (targetIndex / 1000 * 1000)

/-- Translation of `StepCache.clear`. -/
def StepCache.clear (c : StepCache) : StepCache := ⟨[], c.maxSize, []⟩

/-- Cache states reachable from a fresh cache by any sequence of `set`
and `clear` operations. -/
inductive ReachableCache : StepCache → Prop
  | init (maxSize : ℕ) : ReachableCache (StepCache.empty maxSize)
  | set (c : StepCache) (now : ℤ) (step : QuantumStep) :
      ReachableCache c → ReachableCache (c.set now step)
  | clear (c : StepCache) : ReachableCache c → ReachableCache c.clear

/-! ## Similarity scorer (similarityScore.ts, src/unnamed/part_000)

Interval values are embedded as exact rationals (the spec mandates
exact arithmetic for reproducibility); `Math.sqrt` is real square
root, so the correlation-dependent results live in `ℝ`. JavaScript
decimal literals 0.5 / 0.3 / 0.2 are the exact weights 1/2, 3/10,
1/5. -/

/-- Translation of `pearsonCorrelation`: normalized covariance over
the first `min(|x|,|y|)` paired elements, 0 when the compared length
is 0 or the denominator `sqrt(sumSqX*sumSqY)` is 0. -/
noncomputable def pearsonCorrelation (x y : List ℚ) : ℝ :=
  let n := min x.length y.length
  if n = 0 then 0
  else
    let meanX : ℚ := (x.take n).sum / n
    let meanY : ℚ := (y.take n).sum / n
    let numerator : ℚ :=
      (((x.take n).zip (y.take n)).map fun p => (p.1 - meanX) * (p.2 - meanY)).sum
    let sumSqX : ℚ := ((x.take n).map fun v => (v - meanX) ^ 2).sum
    let sumSqY : ℚ := ((y.take n).map fun v => (v - meanY) ^ 2).sum
    if Real.sqrt ((sumSqX : ℝ) * (sumSqY : ℝ)) = 0 then 0
    else (numerator : ℝ) / Real.sqrt ((sumSqX : ℝ) * (sumSqY : ℝ))

/-- Per-pair ratio contribution of `calculateSimilarity`:
`u = q = 0` scores a perfect 1, otherwise `min/max`. -/
def ratioTerm (p : ℚ × ℚ) : ℚ :=
  if p.1 = 0 ∧ p.2 = 0 then 1 else min p.1 p.2 / max p.1 p.2

/-- Ratio-loop total of `calculateSimilarity` over indices `i < n`. -/
def ratioSum (u q : List ℚ) : ℚ := ((u.zip q).map ratioTerm).sum

/-- Error-loop total of `calculateSimilarity`: the source reduces over
ALL indices of `userIntervals` (reading `quantumIntervals[i]`, which
in JavaScript is `undefined` — hence NaN — past the end; the exact
embedding reads a default 0 there, and the bounds theorem restricts to
the in-range case `|u| ≤ |q|`). -/
def errSum (u q : List ℚ) : ℚ :=
  ((List.range u.length).map fun i => |u.getD i 0 - q.getD i 0|).sum

/-- Translation of `calculateSimilarity`: weighted blend of ratio
score (1/2), normalized error score (3/10) and rescaled Pearson
correlation (1/5), clamped to [0, 1]; 0 when the common length is 0. -/
noncomputable def calculateSimilarity (userIntervals quantumIntervals : List ℚ)
    (maxInterval : ℚ) : ℝ :=
  let n := min userIntervals.length quantumIntervals.length
  if n = 0 then 0
  else
    let ratioScore : ℚ := ratioSum userIntervals quantumIntervals / n
    let meanError : ℚ := errSum userIntervals quantumIntervals / n
    let errorScore : ℚ := max 0 (1 - meanError / maxInterval)
    let corrScore : ℝ := (pearsonCorrelation userIntervals quantumIntervals + 1) / 2
    max 0 (min 1 ((1 / 2 : ℝ) * (ratioScore : ℝ) + (3 / 10 : ℝ) * (errorScore : ℝ) +
      (1 / 5 : ℝ) * corrScore))

/-! ## Sequence matcher (sequenceMatcher.ts, src/unnamed/part_003) -/

/-- Translation of `SequenceAlignment` (src/types/matching). -/
structure SequenceAlignment where
  offset : ℕ
  length : ℕ
  alignedSteps : List QuantumStep

/-- Translation of `extractIntervals`. -/
def extractIntervals (steps : List QuantumStep) : List ℚ :=
  steps.map fun s => (s.interval : ℚ)

/-- Window length used by `findBestAlignment`:
`windowSize || userIntervals.length` — an absent OR zero (falsy)
`windowSize` falls back to the user sequence length. -/
def targetLength (userIntervals : List ℚ) (windowSize : Option ℕ) : ℕ :=
  match windowSize with
  | some n => if n = 0 then userIntervals.length else n
  | none => userIntervals.length

/-- Score of the candidate window at a given offset, as computed in
the `findBestAlignment` loop: `calculateSimilarity` of the user
intervals against `quantumIntervals.slice(offset, offset+len)`, with
the default `maxInterval`. -/
noncomputable def windowScore (u : List ℚ) (qs : List QuantumStep) (w : Option ℕ) (o : ℕ) : ℝ :=
  calculateSimilarity u (((extractIntervals qs).drop o).take (targetLength u w))
    ((MAX_INTERVAL_MS : ℚ))

/-- Number of loop iterations of `findBestAlignment`:
offsets 0 .. quantumIntervals.length − targetLength inclusive, none
when that bound is negative (truncated subtraction). -/
def numOffsets (u : List ℚ) (qs : List QuantumStep) (w : Option ℕ) : ℕ :=
  (extractIntervals qs).length + 1 - targetLength u w

/-- One iteration of the `findBestAlignment` loop: update the running
(bestScore, bestOffset) pair when `score > bestScore`. -/
noncomputable def bestAcc (f : ℕ → ℝ) (b : ℝ × ℕ) (o : ℕ) : ℝ × ℕ :=
  if b.1 < f o then (f o, o) else b

/-- The full `findBestAlignment` loop starting from
`bestScore = -1, bestOffset = 0`. -/
noncomputable def bestFold (f : ℕ → ℝ) (N : ℕ) : ℝ × ℕ :=
  (List.range N).foldl (bestAcc f) (-1, 0)

/-- Translation of `findBestAlignment`: sliding-window search keeping
the strictly best score, then slicing the winning window of steps. -/
noncomputable def findBestAlignment (userIntervals : List ℚ) (quantumSteps : List QuantumStep)
    (windowSize : Option ℕ) : SequenceAlignment :=
  let best := bestFold (windowScore userIntervals quantumSteps windowSize)
    (numOffsets userIntervals quantumSteps windowSize)
  ⟨best.2, targetLength userIntervals windowSize,
    (quantumSteps.drop best.2).take (targetLength userIntervals windowSize)⟩

/-! ## matchSequence orchestration (sequenceMatcher.ts) -/

/-- Translation of the `UserSequenceInput.type` discriminator. -/
inductive UserInputType where
  | intervals : UserInputType
  | timestamps : UserInputType
deriving DecidableEq, Repr

/-- Translation of `UserSequenceInput`; the optional `searchRange`
carries the two date range endpoints as millisecond timestamps
(`Date.getTime()`). -/
structure UserSequenceInput where
  type : UserInputType
  values : List ℚ
  searchRange : Option (ℤ × ℤ)

/-- Translation of `parseUserInput`: interval input is passed through;
timestamp input is differenced into consecutive gaps. -/
def parseUserInput (input : UserSequenceInput) : List ℚ :=
  match input.type with
  | .intervals => input.values
  | .timestamps => (input.values.zip input.values.tail).map fun p => p.2 - p.1

/-- Translation of `MatchStatistics` (src/types/matching). -/
structure MatchStatistics where
  meanError : ℝ
  stdDeviation : ℝ
  correlation : ℝ
  rmse : ℝ
  maxError : ℝ
  minError : ℝ

/-- Translation of `calculateStatistics`: absolute pairwise errors
over the common prefix, their mean, population standard deviation,
RMSE, max and min, plus the Pearson correlation of the raw sequences.
JavaScript's `Math.max()`/`Math.min()` of an empty spread (±Infinity)
and `0/0` (NaN) arise only for empty inputs, which `matchSequence`
rules out; the embedding returns 0 there. -/
noncomputable def calculateStatistics (userIntervals quantumIntervals : List ℚ) :
    MatchStatistics :=
  let n := min userIntervals.length quantumIntervals.length
  let errors : List ℚ :=
    ((userIntervals.take n).zip (quantumIntervals.take n)).map fun p => |p.1 - p.2|
  let meanError : ℚ := errors.sum / n
  let variance : ℚ := (errors.map fun e => (e - meanError) ^ 2).sum / n
  let msq : ℚ := (errors.map fun e => e * e).sum / n
  let maxError : ℚ := match errors with | [] => 0 | e :: t => t.foldl max e
  let minError : ℚ := match errors with | [] => 0 | e :: t => t.foldl min e
  ⟨(meanError : ℝ), Real.sqrt ((variance : ℚ) : ℝ),
    pearsonCorrelation userIntervals quantumIntervals,
    Real.sqrt ((msq : ℚ) : ℝ), (maxError : ℝ), (minError : ℝ)⟩

/-- Translation of `MatchResult` (src/types/matching). -/
structure MatchResult where
  similarityScore : ℝ
  alignment : SequenceAlignment
  matchedSteps : List QuantumStep
  statistics : MatchStatistics
  userIntervals : List ℚ
  quantumIntervals : List ℚ

/-- Error kinds surfaced by `matchSequence`: the two thrown validation
errors, plus nontermination of the underlying fueled generation (the
JavaScript code would simply not return in that case). -/
inductive MatchError where
  | invalidInput : String → MatchError
  | generationFailed : MatchError
deriving DecidableEq, Repr

/-- Candidate window obtained by `matchSequence`: the caller-specified
date range via `calculateStepsInRange`, or the default first 10,000
steps from the origin. -/
def obtainWindow (H iso : ℤ → String) (fuel : ℕ) (input : UserSequenceInput) :
    Option (List QuantumStep) :=
  match input.searchRange with
  | some r => calculateStepsInRange H iso fuel r.1 r.2 DEFAULT_CONFIG
  | none =>
    some (calculateStepsForward H iso (getInitialStep H iso) 10000 DEFAULT_CONFIG)

/-- Translation of `matchSequence`: parse the user input, reject an
empty interval list, obtain the candidate window, reject a window
shorter than the user sequence, then align and re-score the winning
window. -/
noncomputable def matchSequence (H iso : ℤ → String) (fuel : ℕ) (input : UserSequenceInput) :
    Except MatchError MatchResult :=
  let userIntervals := parseUserInput input
  if userIntervals.length = 0 then .error (.invalidInput "No intervals to match")
  else
    match obtainWindow H iso fuel input with
    | none => .error .generationFailed
    | some quantumSteps =>
      if quantumSteps.length < userIntervals.length then
        .error (.invalidInput
          "Search range too small for sequence length. Please expand the date range.")
      else
        let alignment := findBestAlignment userIntervals quantumSteps none
        let quantumIntervals := extractIntervals alignment.alignedSteps
        .ok ⟨calculateSimilarity userIntervals quantumIntervals ((MAX_INTERVAL_MS : ℚ)),
          alignment, alignment.alignedSteps,
          calculateStatistics userIntervals quantumIntervals,
          userIntervals, quantumIntervals⟩

/-! ## Properties -/

/-! ### Helper lemmas for the 64-bit prefix bound -/

lemma hexDigitVal_le (c : Char) : hexDigitVal c ≤ 15 := by
  unfold hexDigitVal
  split <;> try split <;> try split
  all_goals omega

lemma hexVal_foldl_lt (l : List Char) :
    ∀ a : ℕ, l.foldl (fun a c => 16 * a + hexDigitVal c) a < (a + 1) * 16 ^ l.length := by
  induction l with
  | nil => intro a; simp
  | cons c t ih =>
    intro a
    have h1 := ih (16 * a + hexDigitVal c)
    have h2 : hexDigitVal c ≤ 15 := hexDigitVal_le c
    calc (c :: t).foldl (fun a c => 16 * a + hexDigitVal c) a
        = t.foldl (fun a c => 16 * a + hexDigitVal c) (16 * a + hexDigitVal c) := by
          simp [List.foldl]
      _ < (16 * a + hexDigitVal c + 1) * 16 ^ t.length := h1
      _ ≤ ((a + 1) * 16) * 16 ^ t.length := by nlinarith
      _ = (a + 1) * 16 ^ (c :: t).length := by
          simp [List.length_cons, pow_succ]; ring

lemma hexVal_lt (l : List Char) : hexVal l < 16 ^ l.length := by
  have := hexVal_foldl_lt l 0
  simpa [hexVal] using this

/-- The claim of spec §4.2 fails at the all-ones 64-bit prefix: with this
digest and `maxInterval = 1`, `hashToDuration` returns exactly `1`, which
is not in the half-open range `[0, 1)`. -/
theorem hashToDuration_allF_counterexample :
    hashToDuration "ffffffffffffffff" 1 = 1 ∧
      ¬ hashToDuration "ffffffffffffffff" 1 < 1 := by
  constructor <;> decide

/-- Claim C1 (amended): for every digest with at least 16 leading hex
characters and every positive `maxInterval` M, `hashToDuration` equals
the truncated quotient `h * M / (2^64 - 1)` of the 64-bit prefix value
`h`, and the result lies in the closed range `[0, M]`; it is strictly
below `M` whenever the prefix is not the all-ones value `2^64 - 1`. -/
theorem hashToDuration_formula_and_range (digest : String) (M : ℤ)
    (hM : 0 < M) (hlen : 16 ≤ digest.toList.length)
    (hhex : ∀ c ∈ digest.toList.take 16, IsHexDigit c) :
    hashToDuration digest M = ((hexVal (digest.toList.take 16) : ℤ) * M).tdiv (2 ^ 64 - 1) ∧
      0 ≤ hashToDuration digest M ∧ hashToDuration digest M ≤ M ∧
      ((hexVal (digest.toList.take 16) : ℤ) < 2 ^ 64 - 1 → hashToDuration digest M < M) := by
  have hD : (2 : ℤ) ^ 64 - 1 = maxUint64 := by decide
  have hDpos : (0 : ℤ) < maxUint64 := by decide
  set h : ℤ := (hexVal (digest.toList.take 16) : ℤ) with hh
  have hh0 : 0 ≤ h := Int.natCast_nonneg _
  have hlt : h < 2 ^ 64 := by
    have hlen16 : (digest.toList.take 16).length = 16 := by
      rw [List.length_take]; omega
    have hv := hexVal_lt (digest.toList.take 16)
    rw [hlen16] at hv
    have hv' : (hexVal (digest.toList.take 16) : ℤ) < ((16 ^ 16 : ℕ) : ℤ) := by
      exact_mod_cast hv
    calc h < ((16 ^ 16 : ℕ) : ℤ) := hv'
      _ = 2 ^ 64 := by norm_num
  have hle : h ≤ maxUint64 := by rw [← hD]; omega
  have heq : hashToDuration digest M = (h * M).tdiv maxUint64 := rfl
  -- for nonnegative operands, truncating division equals Euclidean division
  have hnum : 0 ≤ h * M := mul_nonneg hh0 (le_of_lt hM)
  have htd : (h * M).tdiv maxUint64 = (h * M) / maxUint64 :=
    Int.tdiv_eq_ediv hnum (le_of_lt hDpos)
  refine ⟨by rw [heq, hD], ?_, ?_, ?_⟩
  · rw [heq, htd]
    exact Int.ediv_nonneg hnum (le_of_lt hDpos)
  · rw [heq, htd]
    calc (h * M) / maxUint64 ≤ (maxUint64 * M) / maxUint64 :=
          Int.ediv_le_ediv hDpos (by nlinarith)
      _ = M := Int.mul_ediv_cancel_left M (by decide)
  · intro hstrict
    rw [hD] at hstrict
    rw [heq, htd]
    rw [Int.ediv_lt_iff_lt_mul hDpos]
    have hmul : h * M < maxUint64 * M := by
      apply mul_lt_mul_of_pos_right _ hM
      omega
    linarith [hmul]

/-- Witness for C1 at a concrete digest and `maxInterval = 604800000`. -/
theorem hashToDuration_formula_witness :
    hashToDuration "0123456789abcdef" 604800000 =
        ((hexVal ("0123456789abcdef".toList.take 16) : ℤ) * 604800000).tdiv (2 ^ 64 - 1) ∧
      0 ≤ hashToDuration "0123456789abcdef" 604800000 ∧
      hashToDuration "0123456789abcdef" 604800000 ≤ 604800000 ∧
      ((hexVal ("0123456789abcdef".toList.take 16) : ℤ) < 2 ^ 64 - 1 →
        hashToDuration "0123456789abcdef" 604800000 < 604800000) :=
  hashToDuration_formula_and_range "0123456789abcdef" 604800000 (by decide)
    (by decide) (by decide)

lemma stepsForwardAux_length (H iso : ℤ → String) (config : QuantumConfig)
    (current : QuantumStep) (n : ℕ) :
    (stepsForwardAux H iso config current n).length = n := by
  induction n generalizing current with
  | zero => rfl
  | succ n ih => simp [stepsForwardAux, ih]

lemma calculateStepsForward_length (H iso : ℤ → String) (startStep : QuantumStep) (count : ℕ)
    (config : QuantumConfig) :
    (calculateStepsForward H iso startStep count config).length = count :=
  stepsForwardAux_length H iso config startStep count

/-- Claim C2 (confirmed): the next step depends on the predecessor's
timestamp alone — two steps with equal `timestamp` fields yield, for
any config and the same deterministic hash function, results with
equal `interval`, equal `hash` and equal `timestamp`. -/
theorem calculateNextStep_markov (H iso : ℤ → String) (config : QuantumConfig)
    (s₁ s₂ : QuantumStep) (hts : s₁.timestamp = s₂.timestamp) :
    (calculateNextStep H iso s₁ config).interval = (calculateNextStep H iso s₂ config).interval ∧
      (calculateNextStep H iso s₁ config).hash = (calculateNextStep H iso s₂ config).hash ∧
      (calculateNextStep H iso s₁ config).timestamp =
        (calculateNextStep H iso s₂ config).timestamp := by
  simp [calculateNextStep, hts]

/-- Witness for C2: two steps sharing timestamp 5 but differing in
index, interval, hash and isoString produce equal interval, hash and
timestamp. -/
theorem calculateNextStep_markov_witness :
    (calculateNextStep (fun _ => "ff") (fun _ => "") ⟨0, 5, 1, "a", "x"⟩ DEFAULT_CONFIG).interval =
        (calculateNextStep (fun _ => "ff") (fun _ => "") ⟨7, 5, 2, "b", "y"⟩ DEFAULT_CONFIG).interval ∧
      (calculateNextStep (fun _ => "ff") (fun _ => "") ⟨0, 5, 1, "a", "x"⟩ DEFAULT_CONFIG).hash =
        (calculateNextStep (fun _ => "ff") (fun _ => "") ⟨7, 5, 2, "b", "y"⟩ DEFAULT_CONFIG).hash ∧
      (calculateNextStep (fun _ => "ff") (fun _ => "") ⟨0, 5, 1, "a", "x"⟩ DEFAULT_CONFIG).timestamp =
        (calculateNextStep (fun _ => "ff") (fun _ => "") ⟨7, 5, 2, "b", "y"⟩ DEFAULT_CONFIG).timestamp :=
  calculateNextStep_markov (fun _ => "ff") (fun _ => "") DEFAULT_CONFIG
    ⟨0, 5, 1, "a", "x"⟩ ⟨7, 5, 2, "b", "y"⟩ rfl

lemma range_map_append (f : ℕ → QuantumStep) (k : ℕ) :
    ((List.range k).map f) ++ [f k] = (List.range (k + 1)).map f := by
  rw [List.range_succ, List.map_append]
  rfl

lemma stepsUntilAux_ok (H iso : ℤ → String) (config : QuantumConfig)
    (startStep : QuantumStep) (target : ℤ) (N : ℕ) (hN : N ≤ 1000000)
    (hlt : ∀ j < N, (walkFrom H iso config startStep j).timestamp < target)
    (hge : target ≤ (walkFrom H iso config startStep N).timestamp) :
    ∀ d k, k ≤ N → N - k ≤ d →
      stepsUntilAux H iso target config (walkFrom H iso config startStep k)
          ((List.range k).map fun i => walkFrom H iso config startStep (i + 1)) =
        .ok ((List.range N).map fun i => walkFrom H iso config startStep (i + 1)) := by
  intro d
  induction d with
  | zero =>
    intro k hk hd
    have hkN : k = N := by omega
    subst hkN
    rw [stepsUntilAux]
    simp [not_lt.mpr hge]
  | succ d ih =>
    intro k hk hd
    by_cases hkN : k = N
    · subst hkN
      rw [stepsUntilAux]
      simp [not_lt.mpr hge]
    · have hkN' : k < N := lt_of_le_of_ne hk hkN
      rw [stepsUntilAux]
      have hcur : (walkFrom H iso config startStep k).timestamp < target := hlt k hkN'
      simp only [if_pos hcur]
      have hnxt : calculateNextStep H iso (walkFrom H iso config startStep k) config =
          walkFrom H iso config startStep (k + 1) := rfl
      rw [hnxt, range_map_append]
      have hlen : ¬ 1000000 < ((List.range (k + 1)).map
          fun i => walkFrom H iso config startStep (i + 1)).length := by
        simp only [List.length_map, List.length_range]
        omega
      rw [dif_neg hlen]
      exact ih (k + 1) (by omega) (by omega)

lemma stepsUntilAux_error (H iso : ℤ → String) (config : QuantumConfig)
    (startStep : QuantumStep) (target : ℤ)
    (hbelow : ∀ n ≤ 1000000, (walkFrom H iso config startStep n).timestamp < target) :
    ∀ d k, k ≤ 1000000 → 1000000 - k ≤ d →
      stepsUntilAux H iso target config (walkFrom H iso config startStep k)
          ((List.range k).map fun i => walkFrom H iso config startStep (i + 1)) =
        .error "Maximum step limit exceeded (1,000,000 steps)" := by
  intro d
  induction d with
  | zero =>
    intro k hk hd
    have hkN : k = 1000000 := by omega
    subst hkN
    rw [stepsUntilAux]
    have hcur := hbelow 1000000 le_rfl
    simp only [if_pos hcur]
    have hnxt : calculateNextStep H iso (walkFrom H iso config startStep 1000000) config =
        walkFrom H iso config startStep (1000000 + 1) := rfl
    rw [hnxt, range_map_append]
    have hlen : 1000000 < ((List.range (1000000 + 1)).map
        fun i => walkFrom H iso config startStep (i + 1)).length := by
      simp only [List.length_map, List.length_range]
      omega
    rw [dif_pos hlen]
  | succ d ih =>
    intro k hk hd
    by_cases hkN : k = 1000000
    · subst hkN
      rw [stepsUntilAux]
      have hcur := hbelow 1000000 le_rfl
      simp only [if_pos hcur]
      have hnxt : calculateNextStep H iso (walkFrom H iso config startStep 1000000) config =
          walkFrom H iso config startStep (1000000 + 1) := rfl
      rw [hnxt, range_map_append]
      have hlen : 1000000 < ((List.range (1000000 + 1)).map
          fun i => walkFrom H iso config startStep (i + 1)).length := by
        simp only [List.length_map, List.length_range]
        omega
      rw [dif_pos hlen]
    · have hkN' : k < 1000000 := lt_of_le_of_ne hk hkN
      rw [stepsUntilAux]
      have hcur := hbelow k (le_of_lt hkN')
      simp only [if_pos hcur]
      have hnxt : calculateNextStep H iso (walkFrom H iso config startStep k) config =
          walkFrom H iso config startStep (k + 1) := rfl
      rw [hnxt, range_map_append]
      have hlen : ¬ 1000000 < ((List.range (k + 1)).map
          fun i => walkFrom H iso config startStep (i + 1)).length := by
        simp only [List.length_map, List.length_range]
        omega
      rw [dif_neg hlen]
      exact ih (k + 1) (by omega) (by omega)

/-- Claim C8 (confirmed): `calculateStepsUntil` produces successive
steps exactly while the timestamp is below the target — when the first
chain position `N` whose timestamp reaches the target satisfies
`N ≤ 1000000` it returns exactly the steps at positions `1..N` — and
it fails with the resource-exhaustion error precisely when more than
one million steps would be required (all chain positions up to one
million are still below the target). -/
theorem stepsUntil_spec (H iso : ℤ → String) (config : QuantumConfig)
    (startStep : QuantumStep) (target : ℤ) :
    (∀ N : ℕ, N ≤ 1000000 →
      (∀ j < N, (walkFrom H iso config startStep j).timestamp < target) →
      target ≤ (walkFrom H iso config startStep N).timestamp →
      calculateStepsUntil H iso startStep target config =
        .ok ((List.range N).map fun i => walkFrom H iso config startStep (i + 1))) ∧
    ((∀ n ≤ 1000000, (walkFrom H iso config startStep n).timestamp < target) →
      calculateStepsUntil H iso startStep target config =
        .error "Maximum step limit exceeded (1,000,000 steps)") := by
  constructor
  · intro N hN hlt hge
    have h0 := stepsUntilAux_ok H iso config startStep target N hN hlt hge N 0
      (Nat.zero_le N) (by omega)
    simpa [calculateStepsUntil, walkFrom] using h0
  · intro hbelow
    have h0 := stepsUntilAux_error H iso config startStep target hbelow 1000000 0
      (Nat.zero_le _) (by omega)
    simpa [calculateStepsUntil, walkFrom] using h0

/-- Witness for C8: with a target not above the start timestamp the
loop immediately succeeds with the empty list (crossing position
`N = 0`). -/
theorem stepsUntil_spec_witness :
    calculateStepsUntil (fun _ => "ff") (fun _ => "") ⟨0, 0, 0, "h", "i"⟩ 0 DEFAULT_CONFIG =
      .ok ((List.range 0).map fun i =>
        walkFrom (fun _ => "ff") (fun _ => "") DEFAULT_CONFIG ⟨0, 0, 0, "h", "i"⟩ (i + 1)) :=
  (stepsUntil_spec (fun _ => "ff") (fun _ => "") DEFAULT_CONFIG ⟨0, 0, 0, "h", "i"⟩ 0).1 0
    (by omega) (by omega) (by exact le_refl 0)

lemma findNearAux_go (H iso : ℤ → String) (config : QuantumConfig) (target : ℤ)
    (s : QuantumStep) :
    ∀ fuel k₀, (∀ j < k₀, (chainStep H iso config j).timestamp < target) →
      (k₀ = 0 ∨ (chainStep H iso config k₀).timestamp ≤ target) →
      0 < target →
      findNearAux H iso target config fuel (chainStep H iso config k₀) = some s →
      ∃ k, (∀ j ≤ k, (chainStep H iso config j).timestamp < target) ∧
        target ≤ (chainStep H iso config (k + 1)).timestamp ∧
        s = if (target - (chainStep H iso config k).timestamp).natAbs <
              (target - (chainStep H iso config (k + 1)).timestamp).natAbs
            then chainStep H iso config k else chainStep H iso config (k + 1) := by
  intro fuel
  induction fuel with
  | zero => intro k₀ _ _ _ hres; exact absurd hres (by simp [findNearAux])
  | succ fuel ih =>
    intro k₀ hinv harr htarget hres
    rw [findNearAux] at hres
    have hchain0 : (chainStep H iso config 0).timestamp = 0 := rfl
    have hsucc : ∀ m, calculateNextStep H iso (chainStep H iso config m) config =
        chainStep H iso config (m + 1) := fun m => rfl
    by_cases hcur : (chainStep H iso config k₀).timestamp < target
    · rw [if_pos hcur] at hres
      simp only [hsucc] at hres
      by_cases hover : target < (chainStep H iso config (k₀ + 1)).timestamp
      · rw [if_pos hover] at hres
        refine ⟨k₀, ?_, le_of_lt hover, ?_⟩
        · intro j hj
          rcases Nat.lt_or_ge j k₀ with hj' | hj'
          · exact hinv j hj'
          · have : j = k₀ := le_antisymm hj hj'
            simpa [this] using hcur
        · simpa using hres.symm
      · rw [if_neg hover] at hres
        apply ih (k₀ + 1) _ _ htarget hres
        · intro j hj
          rcases Nat.lt_or_ge j k₀ with hj' | hj'
          · exact hinv j hj'
          · have : j = k₀ := by omega
            simpa [this] using hcur
        · right
          exact not_lt.mp hover
    · rw [if_neg hcur] at hres
      have hk₀pos : k₀ ≠ 0 := by
        intro h0
        rw [h0, hchain0] at hcur
        exact hcur htarget
      have hle : (chainStep H iso config k₀).timestamp ≤ target := by
        rcases harr with h0 | hle
        · exact absurd h0 hk₀pos
        · exact hle
      have heq : (chainStep H iso config k₀).timestamp = target :=
        le_antisymm hle (not_lt.mp hcur)
      obtain ⟨k₁, hk₁⟩ := Nat.exists_eq_succ_of_ne_zero hk₀pos
      subst hk₁
      refine ⟨k₁, ?_, by rw [heq], ?_⟩
      · intro j hj
        exact hinv j (Nat.lt_succ_of_le hj)
      · have hzero : (target - (chainStep H iso config (k₁ + 1)).timestamp).natAbs = 0 := by
          rw [heq]; simp
        rw [hzero]
        simp only [Nat.not_lt_zero, if_neg, Nat.lt_irrefl]
        simp only [Option.some.injEq] at hres
        exact hres.symm

/-- Claim C4 (amended): for a target after the origin, whenever
`findStepNearTimestamp` returns, the result is whichever of the two
chain steps straddling the target is strictly closer, with a tie in
absolute distance broken toward the LATER step (the source returns
`next` when `currentDiff < nextDiff` fails, ties included). -/
theorem findStepNear_spec (H iso : ℤ → String) (config : QuantumConfig)
    (fuel : ℕ) (target : ℤ) (s : QuantumStep)
    (htarget : 0 < target)
    (hres : findStepNearTimestamp H iso fuel target config = some s) :
    ∃ k, (∀ j ≤ k, (chainStep H iso config j).timestamp < target) ∧
      target ≤ (chainStep H iso config (k + 1)).timestamp ∧
      s = if (target - (chainStep H iso config k).timestamp).natAbs <
            (target - (chainStep H iso config (k + 1)).timestamp).natAbs
          then chainStep H iso config k else chainStep H iso config (k + 1) :=
  findNearAux_go H iso config target s fuel 0 (by omega) (Or.inl rfl) htarget hres

/-- Counterexample to C4 as stated: with a chain stepping 0, 2, 4, …
and target 1, the two straddling steps are at equal absolute distance
1, yet `findStepNearTimestamp` returns the LATER step (timestamp 2),
not the earlier one claimed by the spec's tie-break. -/
theorem findStepNear_tie_counterexample :
    ((findStepNearTimestamp (constHash "0000000000000002") isoBlank 5 1 bigConfig).map
        (fun s => s.timestamp)) = some 2 ∧
      (chainStep (constHash "0000000000000002") isoBlank bigConfig 0).timestamp = 0 ∧
      (chainStep (constHash "0000000000000002") isoBlank bigConfig 1).timestamp = 2 ∧
      ((1 : ℤ) - 0).natAbs = ((1 : ℤ) - 2).natAbs := by
  refine ⟨by decide, by decide, by decide, by decide⟩

/-- Witness for C4 (amended): at target 3 on the chain 0, 2, 4, … the
straddling pair is (2, 4), the distances tie, and the returned step is
the later one with timestamp 4. -/
theorem findStepNear_spec_witness :
    ∃ k, (∀ j ≤ k,
        (chainStep (constHash "0000000000000002") isoBlank bigConfig j).timestamp < 3) ∧
      (3 : ℤ) ≤ (chainStep (constHash "0000000000000002") isoBlank bigConfig (k + 1)).timestamp ∧
      (⟨2, 4, 2, "0000000000000002", ""⟩ : QuantumStep) =
        if ((3 : ℤ) -
              (chainStep (constHash "0000000000000002") isoBlank bigConfig k).timestamp).natAbs <
            ((3 : ℤ) -
              (chainStep (constHash "0000000000000002") isoBlank bigConfig (k + 1)).timestamp).natAbs
          then chainStep (constHash "0000000000000002") isoBlank bigConfig k
          else chainStep (constHash "0000000000000002") isoBlank bigConfig (k + 1) :=
  findStepNear_spec (constHash "0000000000000002") isoBlank bigConfig 5 3
    ⟨2, 4, 2, "0000000000000002", ""⟩ (by decide) (by decide)

lemma stepsInRangeAux_go (H iso : ℤ → String) (config : QuantumConfig) (endTs : ℤ)
    (s : QuantumStep) :
    ∀ fuel k acc out,
      stepsInRangeAux H iso endTs config fuel (walkFrom H iso config s k) acc = some out →
      (∀ j < k, (walkFrom H iso config s j).timestamp < endTs) →
      ∃ m, k ≤ m ∧ (∀ j < m, (walkFrom H iso config s j).timestamp < endTs) ∧
        endTs ≤ (walkFrom H iso config s m).timestamp ∧
        out = acc ++ (((List.range (m - k)).map fun i => walkFrom H iso config s (k + 1 + i)).filter
          fun st => decide (st.timestamp ≤ endTs)) := by
  intro fuel
  induction fuel with
  | zero => intro k acc out hres; exact absurd hres (by simp [stepsInRangeAux])
  | succ fuel ih =>
    intro k acc out hres hinv
    rw [stepsInRangeAux] at hres
    have hsucc : ∀ m, calculateNextStep H iso (walkFrom H iso config s m) config =
        walkFrom H iso config s (m + 1) := fun m => rfl
    by_cases hcur : (walkFrom H iso config s k).timestamp < endTs
    · rw [if_pos hcur] at hres
      simp only [hsucc] at hres
      obtain ⟨m, hkm, hbelow, hend, hout⟩ := ih (k + 1) _ out hres (by
        intro j hj
        rcases Nat.lt_or_ge j k with hj' | hj'
        · exact hinv j hj'
        · have hjk : j = k := by omega
          simpa [hjk] using hcur)
      refine ⟨m, by omega, hbelow, hend, ?_⟩
      rw [hout]
      have hmk : m - k = (m - (k + 1)) + 1 := by omega
      rw [hmk, List.range_succ_eq_map, List.map_cons, List.map_map]
      have hfun : ((fun i => walkFrom H iso config s (k + 1 + i)) ∘ Nat.succ) =
          fun i => walkFrom H iso config s (k + 1 + 1 + i) := by
        funext i
        simp only [Function.comp_apply]
        congr 1
        omega
      rw [hfun]
      simp only [Nat.add_zero, List.filter_cons]
      by_cases hc : (walkFrom H iso config s (k + 1)).timestamp ≤ endTs
      · simp [hc, List.append_assoc]
      · simp [hc]
    · rw [if_neg hcur] at hres
      simp only [Option.some.injEq] at hres
      refine ⟨k, le_rfl, hinv, not_lt.mp hcur, ?_⟩
      simp [hres.symm]

/-- Claim C9 (amended): when `calculateStepsInRange` returns, the
result is the step nearest `startTs` (per `findStepNearTimestamp`,
which may lie before `startTs` or even past `endTs`), followed by
exactly those chain steps after it whose timestamp is at most `endTs`,
with none omitted up to the first step reaching `endTs`. -/
theorem stepsInRange_spec (H iso : ℤ → String) (config : QuantumConfig) (fuel : ℕ)
    (startTs endTs : ℤ) (l : List QuantumStep)
    (hrange : startTs ≤ endTs)
    (hres : calculateStepsInRange H iso fuel startTs endTs config = some l) :
    ∃ s m, findStepNearTimestamp H iso fuel startTs config = some s ∧
      (∀ j < m, (walkFrom H iso config s j).timestamp < endTs) ∧
      endTs ≤ (walkFrom H iso config s m).timestamp ∧
      l = s :: (((List.range m).map fun i => walkFrom H iso config s (i + 1)).filter
        fun st => decide (st.timestamp ≤ endTs)) := by
  unfold calculateStepsInRange at hres
  cases hfind : findStepNearTimestamp H iso fuel startTs config with
  | none => rw [hfind] at hres; exact absurd hres (by simp)
  | some s =>
    rw [hfind] at hres
    have hs0 : s = walkFrom H iso config s 0 := rfl
    rw [hs0] at hres
    obtain ⟨m, _, hbelow, hend, hout⟩ :=
      stepsInRangeAux_go H iso config endTs s fuel 0 [walkFrom H iso config s 0] l hres
        (by omega)
    refine ⟨s, m, rfl, hbelow, hend, ?_⟩
    rw [hout]
    have hfun : (fun i => walkFrom H iso config s (0 + 1 + i)) =
        fun i => walkFrom H iso config s (i + 1) := by
      funext i
      congr 1
      omega
    simp only [hfun, Nat.sub_zero, List.singleton_append]
    rfl

/-- Counterexample to C9 as stated: on the chain 0, 10, 20, … the
range query [3, 3] returns a single step with timestamp 0, which is
NOT at or after `startTs = 3`; and the range query [9, 9] returns a
single step with timestamp 10, which is NOT at or before
`endTs = 9`. -/
theorem stepsInRange_counterexample :
    ((calculateStepsInRange (constHash "000000000000000a") isoBlank 6 3 3 bigConfig).map
        fun l => l.map fun st => st.timestamp) = some [0] ∧
      ¬ ((3 : ℤ) ≤ 0) ∧
      ((calculateStepsInRange (constHash "000000000000000a") isoBlank 6 9 9 bigConfig).map
        fun l => l.map fun st => st.timestamp) = some [10] ∧
      ¬ ((10 : ℤ) ≤ 9) := by
  refine ⟨by decide, by decide, by decide, by decide⟩

/-- Witness for C9 (amended) on the chain 0, 10, 20, 30, … over the
range [3, 25]: the nearest step to 3 is the origin, and the collected
steps are those at timestamps 10 and 20. -/
theorem stepsInRange_spec_witness :
    ∃ s m, findStepNearTimestamp (constHash "000000000000000a") isoBlank 6 3 bigConfig =
        some s ∧
      (∀ j < m,
        (walkFrom (constHash "000000000000000a") isoBlank bigConfig s j).timestamp < 25) ∧
      (25 : ℤ) ≤ (walkFrom (constHash "000000000000000a") isoBlank bigConfig s m).timestamp ∧
      [(⟨0, 0, 0, "000000000000000a", ""⟩ : QuantumStep),
          ⟨1, 10, 10, "000000000000000a", ""⟩, ⟨2, 20, 10, "000000000000000a", ""⟩] =
        s :: (((List.range m).map
            fun i => walkFrom (constHash "000000000000000a") isoBlank bigConfig s (i + 1)).filter
          fun st => decide (st.timestamp ≤ 25)) :=
  stepsInRange_spec (constHash "000000000000000a") isoBlank bigConfig 6 3 25
    [⟨0, 0, 0, "000000000000000a", ""⟩, ⟨1, 10, 10, "000000000000000a", ""⟩,
      ⟨2, 20, 10, "000000000000000a", ""⟩] (by decide) (by decide)

lemma mem_assocSet {α : Type} (l : List (ℕ × α)) (k : ℕ) (v : α) (p : ℕ × α)
    (hp : p ∈ assocSet l k v) : p ∈ l ∨ p = (k, v) := by
  induction l with
  | nil => simpa [assocSet] using hp
  | cons q t ih =>
    obtain ⟨k', v'⟩ := q
    rw [assocSet] at hp
    by_cases hk : k' = k
    · rw [if_pos hk] at hp
      rcases List.mem_cons.mp hp with h | h
      · right; exact h
      · left; exact List.mem_cons_of_mem _ h
    · rw [if_neg hk] at hp
      rcases List.mem_cons.mp hp with h | h
      · left; exact h ▸ List.mem_cons_self _ _
      · rcases ih h with h' | h'
        · left; exact List.mem_cons_of_mem _ h'
        · right; exact h'

lemma assocLookup_some {α : Type} (l : List (ℕ × α)) (k : ℕ) (v : α)
    (h : assocLookup l k = some v) : (k, v) ∈ l := by
  induction l with
  | nil => simp [assocLookup] at h
  | cons q t ih =>
    obtain ⟨k', v'⟩ := q
    rw [assocLookup] at h
    by_cases hk : k' = k
    · rw [if_pos hk] at h
      simp only [Option.some.injEq] at h
      subst hk h
      exact List.mem_cons_self _ _
    · rw [if_neg hk] at h
      exact List.mem_cons_of_mem _ (ih h)

lemma assocLookup_none {α : Type} (l : List (ℕ × α)) (k : ℕ)
    (h : assocLookup l k = none) : ∀ p ∈ l, p.1 ≠ k := by
  induction l with
  | nil => intro p hp; simp at hp
  | cons q t ih =>
    obtain ⟨k', v'⟩ := q
    rw [assocLookup] at h
    by_cases hk : k' = k
    · rw [if_pos hk] at h; simp at h
    · rw [if_neg hk] at h
      intro p hp
      rcases List.mem_cons.mp hp with h' | h'
      · subst h'; exact hk
      · exact ih h p h'

/-- Every checkpoint key is a multiple of 1000 and maps to a step whose
index equals the key, in every reachable cache state. -/
lemma reachable_checkpoints_inv (c : StepCache) (h : ReachableCache c) :
    ∀ p ∈ c.checkpoints, p.1 % 1000 = 0 ∧ p.2.index = p.1 := by
  induction h with
  | init maxSize => intro p hp; simp [StepCache.empty] at hp
  | clear c _ _ => intro p hp; simp [StepCache.clear] at hp
  | set c now step _ ih =>
    intro p hp
    simp only [StepCache.set] at hp
    by_cases hmod : step.index % 1000 = 0
    · rw [if_pos hmod] at hp
      rcases mem_assocSet _ _ _ _ hp with h' | h'
      · exact ih p h'
      · subst h'; exact ⟨hmod, rfl⟩
    · rw [if_neg hmod] at hp
      exact ih p hp

/-- Claim C5 (amended): in every reachable cache state,
`getNearestCheckpoint` consults only the bucket
`floor(targetIndex/1000)*1000`. When it returns a step, that step is
the recorded checkpoint with the greatest index at or before
`targetIndex`; but it returns absent exactly when that single bucket is
unpopulated — even if checkpoints at smaller indices exist. -/
theorem getNearestCheckpoint_spec (c : StepCache) (t : ℕ) (hreach : ReachableCache c) :
    (∀ s, c.getNearestCheckpoint t = some s → s.index % 1000 = 0 ∧ s.index ≤ t ∧
      ∀ p ∈ c.checkpoints, p.1 ≤ t → p.1 ≤ s.index) ∧
    (c.getNearestCheckpoint t = none → ∀ p ∈ c.checkpoints, p.1 ≠ t / 1000 * 1000) := by
  have hinv := reachable_checkpoints_inv c hreach
  constructor
  · intro s hs
    have hmem : (t / 1000 * 1000, s) ∈ c.checkpoints := assocLookup_some _ _ _ hs
    have hidx : s.index = t / 1000 * 1000 := (hinv _ hmem).2
    refine ⟨?_, ?_, ?_⟩
    · rw [hidx]; exact Nat.mul_mod_left _ _
    · rw [hidx]; exact Nat.div_mul_le_self t 1000
    · intro p hp hpt
      have hpmod : p.1 % 1000 = 0 := (hinv p hp).1
      have hdvd : 1000 ∣ p.1 := Nat.dvd_of_mod_eq_zero hpmod
      have hpeq : p.1 / 1000 * 1000 = p.1 := Nat.div_mul_cancel hdvd
      rw [hidx, ← hpeq]
      exact Nat.mul_le_mul_right 1000 (Nat.div_le_div_right hpt)
  · intro hnone
    exact assocLookup_none _ _ hnone

/-- Counterexample to C5 as stated: after caching the origin step
(index 0, a checkpoint), `getNearestCheckpoint 2500` consults only
bucket 2000 and returns absent, even though the checkpoint at index
0 ≤ 2500 exists. -/
theorem getNearestCheckpoint_counterexample :
    ((StepCache.empty 10000).set 7 ⟨0, 0, 0, "h", "i"⟩).getNearestCheckpoint 2500 = none ∧
      ((0 : ℕ), (⟨0, 0, 0, "h", "i"⟩ : QuantumStep)) ∈
        ((StepCache.empty 10000).set 7 ⟨0, 0, 0, "h", "i"⟩).checkpoints ∧
      (0 : ℕ) ≤ 2500 := by
  refine ⟨by decide, by decide, by decide⟩

/-- Witness for C5 (amended) on a cache holding the checkpoint at
index 1000, queried at 1500. -/
theorem getNearestCheckpoint_spec_witness :
    (∀ s, ((StepCache.empty 10000).set 3 ⟨1000, 5, 5, "a", "b"⟩).getNearestCheckpoint 1500 =
        some s → s.index % 1000 = 0 ∧ s.index ≤ 1500 ∧
        ∀ p ∈ ((StepCache.empty 10000).set 3 ⟨1000, 5, 5, "a", "b"⟩).checkpoints,
          p.1 ≤ 1500 → p.1 ≤ s.index) ∧
    (((StepCache.empty 10000).set 3 ⟨1000, 5, 5, "a", "b"⟩).getNearestCheckpoint 1500 = none →
      ∀ p ∈ ((StepCache.empty 10000).set 3 ⟨1000, 5, 5, "a", "b"⟩).checkpoints,
        p.1 ≠ 1500 / 1000 * 1000) :=
  getNearestCheckpoint_spec ((StepCache.empty 10000).set 3 ⟨1000, 5, 5, "a", "b"⟩) 1500
    (ReachableCache.set _ 3 _ (ReachableCache.init 10000))

lemma calculateSimilarity_nonneg (u q : List ℚ) (M : ℚ) :
    0 ≤ calculateSimilarity u q M := by
  simp only [calculateSimilarity]
  split
  · norm_num
  · exact le_max_left _ _

lemma calculateSimilarity_le_one (u q : List ℚ) (M : ℚ) :
    calculateSimilarity u q M ≤ 1 := by
  simp only [calculateSimilarity]
  split
  · norm_num
  · exact max_le zero_le_one (min_le_left _ _)

lemma zip_self_map (l : List ℚ) (f : ℚ × ℚ → ℚ) :
    (l.zip l).map f = l.map fun a => f (a, a) := by
  induction l with
  | nil => rfl
  | cons a t ih => simp [List.zip_cons_cons, ih]

lemma ratioTerm_diag (a : ℚ) : ratioTerm (a, a) = 1 := by
  unfold ratioTerm
  by_cases ha : a = 0
  · simp [ha]
  · simp [ha, div_self ha]

lemma map_one_sum (l : List ℚ) : (l.map fun _ => (1 : ℚ)).sum = l.length := by
  induction l with
  | nil => simp
  | cons a t ih =>
    simp only [List.map_cons, List.sum_cons, ih, List.length_cons]
    push_cast
    ring

lemma ratioSum_self (l : List ℚ) : ratioSum l l = l.length := by
  unfold ratioSum
  rw [zip_self_map]
  simp only [ratioTerm_diag]
  exact map_one_sum l

lemma errSum_self (l : List ℚ) : errSum l l = 0 := by
  unfold errSum
  apply List.sum_eq_zero
  intro x hx
  obtain ⟨i, _, rfl⟩ := List.mem_map.mp hx
  simp

lemma pearson_self (x : List ℚ) (hx : ∃ a ∈ x, ∃ b ∈ x, a ≠ b) :
    pearsonCorrelation x x = 1 := by
  obtain ⟨a, ha, b, hb, hab⟩ := hx
  have hlen : x.length ≠ 0 := by
    intro h
    rw [List.length_eq_zero] at h
    subst h
    simp at ha
  set m : ℚ := x.sum / x.length with hm
  have hc : ∃ c ∈ x, c ≠ m := by
    by_contra hall
    push_neg at hall
    exact hab ((hall a ha).trans (hall b hb).symm)
  set S : ℚ := (x.map fun v => (v - m) ^ 2).sum with hSdef
  have hS : 0 < S := by
    obtain ⟨c, hcmem, hcne⟩ := hc
    have hterm : 0 < (c - m) ^ 2 := pow_two_pos_of_ne_zero (sub_ne_zero.mpr hcne)
    have hmem2 : (c - m) ^ 2 ∈ x.map fun v => (v - m) ^ 2 := List.mem_map_of_mem _ hcmem
    have hle : (c - m) ^ 2 ≤ S := by
      apply List.single_le_sum _ _ hmem2
      intro y hy
      obtain ⟨v, _, rfl⟩ := List.mem_map.mp hy
      positivity
    linarith
  have hmul : (fun a => (a - m) * (a - m)) = fun a : ℚ => (a - m) ^ 2 := by
    funext v
    ring
  simp only [pearsonCorrelation, min_self, List.take_length]
  rw [if_neg hlen, zip_self_map]
  simp only [← hm, hmul, ← hSdef]
  have hScast : (0 : ℝ) < (S : ℝ) := by exact_mod_cast hS
  rw [Real.sqrt_mul_self (le_of_lt hScast)]
  rw [if_neg (ne_of_gt hScast)]
  exact div_self (ne_of_gt hScast)

/-- Claim C3 (amended): `calculateSimilarity` returns a value in
[0, 1] whenever the user sequence is no longer than the candidate (the
source reads past the candidate's end otherwise, producing NaN in
JavaScript), and identical sequences score exactly 1 provided the
sequence takes at least two distinct values — a constant identical
sequence scores 9/10, because the degenerate Pearson denominator
returns correlation 0 instead of 1. -/
theorem calculateSimilarity_bounds_and_identical :
    (∀ (u q : List ℚ) (M : ℚ), u.length ≤ q.length →
      0 ≤ calculateSimilarity u q M ∧ calculateSimilarity u q M ≤ 1) ∧
    (∀ (u : List ℚ) (M : ℚ), 0 < M → (∃ a ∈ u, ∃ b ∈ u, a ≠ b) →
      calculateSimilarity u u M = 1) := by
  constructor
  · intro u q M _
    exact ⟨calculateSimilarity_nonneg u q M, calculateSimilarity_le_one u q M⟩
  · intro u M _ hx
    have hlen : u.length ≠ 0 := by
      obtain ⟨a, ha, _⟩ := hx
      intro h
      rw [List.length_eq_zero] at h
      subst h
      simp at ha
    have hQlen : ((u.length : ℚ)) ≠ 0 := by exact_mod_cast hlen
    simp only [calculateSimilarity, min_self]
    rw [if_neg hlen]
    rw [ratioSum_self u, errSum_self u, pearson_self u hx]
    rw [div_self hQlen, zero_div, zero_div]
    norm_num

lemma pearson_single_diag (a : ℚ) : pearsonCorrelation [a] [a] = 0 := by
  simp only [pearsonCorrelation, List.length_singleton, min_self, List.take]
  norm_num [List.zip_cons_cons]

lemma calcSim_single_diag (a M : ℚ) : calculateSimilarity [a] [a] M = 9 / 10 := by
  simp only [calculateSimilarity, List.length_singleton, min_self]
  rw [if_neg one_ne_zero, ratioSum_self, errSum_self, pearson_single_diag]
  norm_num

/-- Counterexample to C3 as stated: the identical one-element (hence
constant) sequences `[5]` and `[5]` score 9/10, not 1. -/
theorem calculateSimilarity_identical_counterexample :
    calculateSimilarity [5] [5] ((MAX_INTERVAL_MS : ℚ)) = 9 / 10 ∧
      calculateSimilarity [5] [5] ((MAX_INTERVAL_MS : ℚ)) ≠ 1 := by
  have h := calcSim_single_diag 5 ((MAX_INTERVAL_MS : ℚ))
  refine ⟨h, ?_⟩
  rw [h]
  norm_num

/-- Witness for C3 (amended) at concrete sequences. -/
theorem calculateSimilarity_bounds_witness :
    (0 ≤ calculateSimilarity [1, 2] [1, 2, 3] 604800000 ∧
      calculateSimilarity [1, 2] [1, 2, 3] 604800000 ≤ 1) ∧
    calculateSimilarity [1, 2] [1, 2] 604800000 = 1 :=
  ⟨calculateSimilarity_bounds_and_identical.1 [1, 2] [1, 2, 3] 604800000 (by norm_num),
    calculateSimilarity_bounds_and_identical.2 [1, 2] 604800000 (by norm_num)
      ⟨1, by simp, 2, by simp, by norm_num⟩⟩

lemma bestFold_zero (f : ℕ → ℝ) : bestFold f 0 = (-1, 0) := rfl

lemma bestFold_spec (f : ℕ → ℝ) (N : ℕ) :
    (bestFold f N = (-1, 0) ∧ ∀ o < N, f o ≤ -1) ∨
    ((bestFold f N).2 < N ∧ (bestFold f N).1 = f (bestFold f N).2 ∧ -1 < (bestFold f N).1 ∧
      (∀ o < N, f o ≤ (bestFold f N).1) ∧ (∀ o < (bestFold f N).2, f o < (bestFold f N).1)) := by
  induction N with
  | zero =>
    left
    exact ⟨rfl, by omega⟩
  | succ N ih =>
    have hstep : bestFold f (N + 1) = bestAcc f (bestFold f N) N := by
      unfold bestFold
      rw [List.range_succ, List.foldl_append, List.foldl_cons, List.foldl_nil]
    rcases ih with ⟨heq, hall⟩ | ⟨hlt, heqf, hneg, hmax, hfirst⟩
    · rw [hstep, heq]
      unfold bestAcc
      by_cases hN : (-1 : ℝ) < f N
      · rw [if_pos hN]
        right
        refine ⟨Nat.lt_succ_self N, rfl, hN, ?_, ?_⟩
        · intro o ho
          rcases Nat.lt_or_ge o N with ho' | ho'
          · exact le_of_lt (lt_of_le_of_lt (hall o ho') hN)
          · have hoN : o = N := by omega
            rw [hoN]
        · intro o ho
          exact lt_of_le_of_lt (hall o (lt_of_lt_of_le ho (Nat.le_refl N))) hN
      · rw [if_neg (by simpa using hN)]
        left
        refine ⟨rfl, ?_⟩
        intro o ho
        rcases Nat.lt_or_ge o N with ho' | ho'
        · exact hall o ho'
        · have hoN : o = N := by omega
          rw [hoN]
          exact not_lt.mp hN
    · rw [hstep]
      unfold bestAcc
      by_cases hN : (bestFold f N).1 < f N
      · rw [if_pos hN]
        right
        refine ⟨Nat.lt_succ_self N, rfl, lt_trans hneg hN, ?_, ?_⟩
        · intro o ho
          rcases Nat.lt_or_ge o N with ho' | ho'
          · exact le_of_lt (lt_of_le_of_lt (hmax o ho') hN)
          · have hoN : o = N := by omega
            rw [hoN]
        · intro o ho
          exact lt_of_le_of_lt (hmax o ho) hN
      · rw [if_neg (by simpa using hN)]
        right
        refine ⟨lt_trans hlt (Nat.lt_succ_self N), heqf, hneg, ?_, hfirst⟩
        intro o ho
        rcases Nat.lt_or_ge o N with ho' | ho'
        · exact hmax o ho'
        · have hoN : o = N := by omega
          rw [hoN]
          exact not_lt.mp hN

lemma bestFold_first_argmax (f : ℕ → ℝ) (N o₁ : ℕ) (h₁ : o₁ < N) (hneg : -1 < f o₁)
    (hmax : ∀ o < N, f o ≤ f o₁) (hfirst : ∀ o < o₁, f o < f o₁) :
    (bestFold f N).2 = o₁ := by
  rcases bestFold_spec f N with ⟨_, hall⟩ | ⟨hlt, heqf, _, hmax', hfirst'⟩
  · exact absurd (hall o₁ h₁) (not_le.mpr hneg)
  · have h1 : f (bestFold f N).2 ≤ f o₁ := hmax _ hlt
    have h2 : f o₁ ≤ f (bestFold f N).2 := heqf ▸ hmax' o₁ h₁
    have heq : f (bestFold f N).2 = f o₁ := le_antisymm h1 h2
    by_contra hne
    rcases Nat.lt_or_ge (bestFold f N).2 o₁ with hlt2 | hge
    · exact absurd heq (ne_of_lt (hfirst _ hlt2))
    · have ho₁ : o₁ < (bestFold f N).2 := by omega
      have hcontra := hfirst' o₁ ho₁
      rw [heqf, heq] at hcontra
      exact lt_irrefl _ hcontra

/-- Claim C6 (confirmed): when the maximal window score is achieved at
two or more offsets, `findBestAlignment` returns the smallest of the
maximal-scoring offsets (`o₁` below: maximal everywhere, strictly
above every earlier offset). -/
theorem findBestAlignment_tiebreak (u : List ℚ) (qs : List QuantumStep) (w : Option ℕ)
    (o₁ : ℕ) (h₁ : o₁ < numOffsets u qs w)
    (hmax : ∀ o < numOffsets u qs w, windowScore u qs w o ≤ windowScore u qs w o₁)
    (hfirst : ∀ o < o₁, windowScore u qs w o < windowScore u qs w o₁)
    (htwo : ∃ o₂, o₂ < numOffsets u qs w ∧ o₂ ≠ o₁ ∧
      windowScore u qs w o₂ = windowScore u qs w o₁) :
    (findBestAlignment u qs w).offset = o₁ := by
  have hneg : (-1 : ℝ) < windowScore u qs w o₁ := by
    have h0 : (0 : ℝ) ≤ windowScore u qs w o₁ := calculateSimilarity_nonneg _ _ _
    linarith
  exact bestFold_first_argmax (windowScore u qs w) (numOffsets u qs w) o₁ h₁ hneg hmax hfirst

/-- Claim C10 (confirmed): `findBestAlignment` is total. With enough
candidates the returned alignment is a genuine window — offset in
range, `length` the window length, `alignedSteps` the contiguous slice
of exactly that many steps. With fewer candidates than the window
length it silently returns offset 0 and the whole candidate list, so
`alignedSteps` is SHORTER than the `length` field claims. -/
theorem findBestAlignment_shape (u : List ℚ) (qs : List QuantumStep) (w : Option ℕ) :
    (targetLength u w ≤ qs.length →
      (findBestAlignment u qs w).offset + targetLength u w ≤ qs.length ∧
      (findBestAlignment u qs w).length = targetLength u w ∧
      (findBestAlignment u qs w).alignedSteps =
        (qs.drop (findBestAlignment u qs w).offset).take (targetLength u w) ∧
      (findBestAlignment u qs w).alignedSteps.length = targetLength u w) ∧
    (qs.length < targetLength u w →
      (findBestAlignment u qs w).offset = 0 ∧
      (findBestAlignment u qs w).length = targetLength u w ∧
      (findBestAlignment u qs w).alignedSteps = qs ∧
      (findBestAlignment u qs w).alignedSteps.length < (findBestAlignment u qs w).length) := by
  have hlen : (extractIntervals qs).length = qs.length := by
    simp [extractIntervals]
  have hoffset : (findBestAlignment u qs w).offset =
      (bestFold (windowScore u qs w) (numOffsets u qs w)).2 := rfl
  constructor
  · intro hT
    have hbound : (bestFold (windowScore u qs w) (numOffsets u qs w)).2 + targetLength u w ≤
        qs.length := by
      rcases bestFold_spec (windowScore u qs w) (numOffsets u qs w) with ⟨heq, _⟩ |
        ⟨hlt, _, _, _, _⟩
      · rw [heq]
        simpa using hT
      · have hNval : numOffsets u qs w = qs.length + 1 - targetLength u w := by
          unfold numOffsets
          rw [hlen]
        omega
    refine ⟨hbound, rfl, rfl, ?_⟩
    show ((qs.drop (bestFold (windowScore u qs w) (numOffsets u qs w)).2).take
      (targetLength u w)).length = targetLength u w
    rw [List.length_take, List.length_drop]
    omega
  · intro hT
    have hN : numOffsets u qs w = 0 := by
      unfold numOffsets
      omega
    have hfold : bestFold (windowScore u qs w) (numOffsets u qs w) = (-1, 0) := by
      rw [hN]
      exact bestFold_zero _
    have hoff0 : (findBestAlignment u qs w).offset = 0 := by
      rw [hoffset, hfold]
    have hsteps : (findBestAlignment u qs w).alignedSteps = qs := by
      show (qs.drop (bestFold (windowScore u qs w) (numOffsets u qs w)).2).take
        (targetLength u w) = qs
      rw [hfold]
      simpa using List.take_of_length_le (le_of_lt hT)
    refine ⟨hoff0, rfl, hsteps, ?_⟩
    rw [hsteps]
    exact hT

/-- Witness for C6: a one-interval user sequence against two
zero-interval candidate steps gives two offsets with the equal maximal
score 9/10, and the search returns the smaller offset 0. -/
theorem findBestAlignment_tiebreak_witness :
    (findBestAlignment [(0 : ℚ)] [⟨0, 0, 0, "x", ""⟩, ⟨1, 0, 0, "x", ""⟩] none).offset = 0 := by
  have hw : ∀ o, o < 2 →
      windowScore [(0 : ℚ)] [⟨0, 0, 0, "x", ""⟩, ⟨1, 0, 0, "x", ""⟩] none o = 9 / 10 := by
    intro o ho
    interval_cases o
    · unfold windowScore
      rw [show (((extractIntervals [⟨0, 0, 0, "x", ""⟩, ⟨1, 0, 0, "x", ""⟩]).drop 0).take
          (targetLength [(0 : ℚ)] none)) = [(0 : ℚ)] from by decide]
      exact calcSim_single_diag 0 _
    · unfold windowScore
      rw [show (((extractIntervals [⟨0, 0, 0, "x", ""⟩, ⟨1, 0, 0, "x", ""⟩]).drop 1).take
          (targetLength [(0 : ℚ)] none)) = [(0 : ℚ)] from by decide]
      exact calcSim_single_diag 0 _
  have hN : numOffsets [(0 : ℚ)] [⟨0, 0, 0, "x", ""⟩, ⟨1, 0, 0, "x", ""⟩] none = 2 := by decide
  apply findBestAlignment_tiebreak _ _ _ 0
  · rw [hN]
    omega
  · intro o ho
    rw [hN] at ho
    rw [hw o ho, hw 0 (by omega)]
  · intro o ho
    omega
  · refine ⟨1, by rw [hN]; omega, by omega, ?_⟩
    rw [hw 1 (by omega), hw 0 (by omega)]

/-- Witness for C10 at a candidate list shorter than the window: the
alignment claims length 3 but carries only the 1 available step. -/
theorem findBestAlignment_shape_witness :
    (findBestAlignment [(1 : ℚ), 2, 3] [⟨0, 0, 0, "x", ""⟩] none).offset = 0 ∧
      (findBestAlignment [(1 : ℚ), 2, 3] [⟨0, 0, 0, "x", ""⟩] none).length =
        targetLength [(1 : ℚ), 2, 3] none ∧
      (findBestAlignment [(1 : ℚ), 2, 3] [⟨0, 0, 0, "x", ""⟩] none).alignedSteps =
        [⟨0, 0, 0, "x", ""⟩] ∧
      (findBestAlignment [(1 : ℚ), 2, 3] [⟨0, 0, 0, "x", ""⟩] none).alignedSteps.length <
        (findBestAlignment [(1 : ℚ), 2, 3] [⟨0, 0, 0, "x", ""⟩] none).length :=
  (findBestAlignment_shape [(1 : ℚ), 2, 3] [⟨0, 0, 0, "x", ""⟩] none).2 (by decide)

/-- Claim C7 (confirmed): given that the candidate window is obtained
(hashing/generation succeeds), `matchSequence` fails with a validation
error exactly when the parsed user sequence is empty or the window has
fewer steps than the user sequence, and otherwise returns a
`MatchResult`. -/
theorem matchSequence_validation (H iso : ℤ → String) (fuel : ℕ)
    (input : UserSequenceInput) (w : List QuantumStep)
    (hw : obtainWindow H iso fuel input = some w) :
    ((∃ msg, matchSequence H iso fuel input = .error (.invalidInput msg)) ↔
      (parseUserInput input = [] ∨ w.length < (parseUserInput input).length)) ∧
    (¬ (parseUserInput input = [] ∨ w.length < (parseUserInput input).length) →
      ∃ r : MatchResult, matchSequence H iso fuel input = .ok r) := by
  unfold matchSequence
  by_cases hempty : (parseUserInput input).length = 0
  · rw [if_pos hempty]
    constructor
    · exact ⟨fun _ => Or.inl (List.length_eq_zero.mp hempty), fun _ => ⟨_, rfl⟩⟩
    · intro hcon
      exact absurd (Or.inl (List.length_eq_zero.mp hempty)) hcon
  · rw [if_neg hempty, hw]
    dsimp only
    by_cases hshort : w.length < (parseUserInput input).length
    · rw [if_pos hshort]
      constructor
      · exact ⟨fun _ => Or.inr hshort, fun _ => ⟨_, rfl⟩⟩
      · intro hcon
        exact absurd (Or.inr hshort) hcon
    · rw [if_neg hshort]
      constructor
      · constructor
        · rintro ⟨msg, hmsg⟩
          exact absurd hmsg (by simp)
        · rintro (h | h)
          · exact absurd (List.length_eq_zero.mpr h) hempty
          · exact absurd h hshort
      · intro _
        exact ⟨_, rfl⟩

/-- Witness for C7: an empty interval list over a degenerate search
range fails with the validation error. -/
theorem matchSequence_validation_witness :
    ∃ msg, matchSequence (constHash "0") isoBlank 1
        ⟨UserInputType.intervals, [], some (0, -1)⟩ =
      .error (.invalidInput msg) :=
  (matchSequence_validation (constHash "0") isoBlank 1
    ⟨UserInputType.intervals, [], some (0, -1)⟩ [⟨0, 0, 0, "0", ""⟩]
    (by decide)).1.mpr (Or.inl rfl)

end QuantumWalk

